import Mathlib

/-!
Verification of the Gutenberg Word Frequency Tool (src/gutenberg_guiKH.py).

The Python program is embedded shallowly:

* The word counter at lines 129 and 169 of the source is
  re.findall applied to the pattern \b[a-zA-Z]{3,}\b over text.lower().
  A match of this pattern is a maximal run of ASCII letters of length at
  least three whose neighbouring characters, when present, are not word
  characters: the run cannot be extended (the character class rejects
  non-letters), the \b assertions demand a word/non-word transition on both
  sides, and no match can start or stop strictly inside a letter run because
  there is no such transition there.  Backtracking cannot help: shortening a
  greedy match leaves a letter, hence a word character, after the match.
  `scanWords` below is a one-pass engine with exactly this behaviour; the
  state is the pending (reversed) letter run plus one boolean recording
  whether the character before the pending run start was a word character.
  The model treats ASCII inputs; the Python word class also covers
  non-ASCII word characters, which no claim exercises.

* Counter(words) keeps its keys in first-insertion order, which for a word
  list is first-occurrence order; most_common(10) is documented to be
  equivalent to a stable descending sort on the counts followed by taking
  ten items.  `counterOf` and `most_common` model exactly that: an
  association list built left to right and a stable insertion sort.

* The SQLite store is a pair of insertion-ordered tables.  The query
  SELECT word, frequency ... ORDER BY frequency DESC LIMIT 10 is modelled
  with the same stable descending sort; SQLite leaves the order of equal
  frequencies unspecified, and no claim depends on it.

* Network input and output is an oracle (`Network`): one function per call
  site of urllib.request.urlopen, returning either the decoded body or the
  text of the raised exception.  The search page body is represented as the
  stream of start-tag events that html.parser.HTMLParser would deliver to
  handle_starttag; attribute values are Option String because HTMLParser
  reports a valueless attribute as None.

* Each GUI action is a function from the store and the oracle to a
  `RunResult`: the updated store, the final content of the output box (the
  lines inserted after the last clear), and the list of URLs requested.
-/

namespace Gutenberg

/-- Word character of the Python regex class \w, restricted to ASCII:
letters, digits and the underscore.  The \b assertion in the source
pattern holds between a word and a non-word character (or the text edge). -/
def isWordChar (c : Char) : Bool := c.isAlphanum || c == '_'

/-- Word-character test on an optional character; `none` stands for the
edge of the text, which \b treats like a non-word character. -/
def optIsWord : Option Char → Bool
  | none => false
  | some c => isWordChar c

/-- One-pass engine for re.findall of \b[a-zA-Z]{3,}\b (see the file
comment).  `ok` records that the character before the pending run was not a
word character; `acc` is the pending letter run, reversed. -/
def scanWords (ok : Bool) (acc : List Char) : List Char → List (List Char)
  | [] => if ok && decide (3 ≤ acc.length) then [acc.reverse] else []
  | c :: cs =>
    if c.isAlpha then
      scanWords ok (c :: acc) cs
    else
      (if ok && decide (3 ≤ acc.length) && !isWordChar c then [acc.reverse] else []) ++
        scanWords (!isWordChar c) [] cs

/-- Tokenizer of the source (lines 129 and 169):
re.findall of \b[a-zA-Z]{3,}\b over text.lower(). -/
def wcWords (s : String) : List String :=
  (scanWords true [] (s.toList.map Char.toLower)).map (fun r => String.mk r)

/-- Maximal runs of ASCII letters of a character list: the splitter behind
the two spec-level tokenizer readings below.  `acc` is the current run,
reversed. -/
def lettersSplit (acc : List Char) : List Char → List (List Char)
  | [] => if acc.isEmpty then [] else [acc.reverse]
  | c :: cs =>
    if c.isAlpha then lettersSplit (c :: acc) cs
    else (if acc.isEmpty then [] else [acc.reverse]) ++ lettersSplit [] cs

/-- Tokenizer as the claim words it, with no word-boundary side condition:
the maximal runs of ASCII letters of length at least three, case-folded to
lowercase. -/
def claimTokens (s : String) : List String :=
  ((lettersSplit [] (s.toList.map Char.toLower)).filter
      (fun r => decide (3 ≤ r.length))).map (fun r => String.mk r)

/-- Maximal runs of ASCII letters together with their context: each entry
is (character before the run, the run, character after the run), `none` at
a text edge.  Defined by recursion on the remaining text. -/
def runsCtx : Option Char → List Char → List (Option Char × List Char × Option Char)
  | _, [] => []
  | prev, c :: cs =>
    if c.isAlpha then
      (prev, c :: cs.takeWhile Char.isAlpha, (cs.dropWhile Char.isAlpha).head?) ::
        runsCtx (some ((cs.takeWhile Char.isAlpha).getLastD c)) (cs.dropWhile Char.isAlpha)
    else
      runsCtx (some c) cs
termination_by _ l => l.length
decreasing_by
  · simp only [List.length_cons]
    exact Nat.lt_succ_of_le (List.dropWhile_suffix _).length_le
  · simp only [List.length_cons]
    exact Nat.lt_succ_of_le (Nat.le_refl _)

/-- Runs kept by the word-boundary reading: length at least three and no
word character on either side. -/
def ctxTokens (l : List (Option Char × List Char × Option Char)) : List (List Char) :=
  (l.filter (fun t => !optIsWord t.1 && decide (3 ≤ t.2.1.length) && !optIsWord t.2.2)).map
    (fun t => t.2.1)

/-- Tokenizer as the amended claim words it: the maximal runs of ASCII
letters of length at least three whose neighbouring characters, when
present, are not word characters (the \b requirement), case-folded to
lowercase. -/
def amendedTokens (s : String) : List String :=
  (ctxTokens (runsCtx none (s.toList.map Char.toLower))).map (fun r => String.mk r)

/-- Record one occurrence of `w` in a counter association list, as a Python
dict does: bump the existing entry in place, or append a new key at the
end. -/
def bump (w : String) : List (String × Nat) → List (String × Nat)
  | [] => [(w, 1)]
  | p :: ps => if p.1 = w then (p.1, p.2 + 1) :: ps else p :: bump w ps

/-- Model of collections.Counter(words): the (word, count) items in
first-insertion order, which for a word list is first-occurrence order. -/
def counterOf (ws : List String) : List (String × Nat) :=
  ws.foldl (fun acc w => bump w acc) []

/-- Insert a pair into a descending-by-count list, before the first entry
whose count does not exceed it: the insertion step of a stable descending
sort. -/
def insertDesc (p : String × Nat) : List (String × Nat) → List (String × Nat)
  | [] => [p]
  | q :: qs => if q.2 ≤ p.2 then p :: q :: qs else q :: insertDesc p qs

/-- Stable insertion sort, count descending.  Models both the documented
behaviour of Counter.most_common (equivalent to a stable sorted with
reverse=True on the counts) and the ORDER BY frequency DESC of the store
query (whose tie order SQLite leaves open; no claim relies on it). -/
def sortDesc : List (String × Nat) → List (String × Nat)
  | [] => []
  | p :: ps => insertDesc p (sortDesc ps)

/-- Model of Counter(words).most_common(n): the counter items, stable-sorted
by count descending, first n kept. -/
def most_common (n : Nat) (ws : List String) : List (String × Nat) :=
  (sortDesc (counterOf ws)).take n

/-- Lines 129 to 130 and 169 to 170 of the source: tokenize the lowercased
text and keep the ten most common words. -/
def top_words (text : String) : List (String × Nat) :=
  most_common 10 (wcWords text)

/-- Index of the first occurrence of `w` in a word list (list length when
absent): the claim about tie order speaks of first occurrence in the text. -/
def firstIdx (w : String) : List String → Nat
  | [] => 0
  | x :: xs => if x = w then 0 else firstIdx w xs + 1

/-- Start-tag event as html.parser.HTMLParser delivers it to
handle_starttag: the lowercased tag name and the attribute list, a value
being `none` when the attribute is written without a value. -/
structure Tag where
  name : String
  attrs : List (String × Option String)
deriving DecidableEq

/-- Parser state of GutenbergSearchParser (lines 28 to 31). -/
structure PState where
  book_links : List (Option String)
  in_result : Bool
deriving DecidableEq

/-- Lookup in dict(attrs): the value of the last pair carrying the key,
`none` when the key is absent.  The outer Option is key presence, the
inner one is the Python value (None or a string). -/
def attrGet (k : String) (attrs : List (String × Option String)) : Option (Option String) :=
  (attrs.reverse.find? (fun p => p.1 == k)).map (fun p => p.2)

/-- Substring test, modelling the Python `in` operator on strings. -/
def containsSub (needle hay : String) : Bool :=
  hay.toList.tails.any (fun t => needle.toList.isPrefixOf t)

/-- Line 41 of the source: tag == li and class in attrs and booklink in
attrs[class].  When the class attribute is present without a value the
membership test runs on None and Python raises a TypeError (text of the
message kept without its inner quotes), which escapes handle_starttag. -/
def classMarker (t : Tag) : Except String Bool :=
  if t.name = "li" then
    match attrGet "class" t.attrs with
    | none => .ok false
    | some none => .error "TypeError: argument of type NoneType is not iterable"
    | some (some v) => .ok (containsSub "booklink" v)
  else .ok false

/-- Lines 33 to 45 of the source: set in_result on a booklink list item,
then capture the href of an anchor seen while in_result, clearing the
flag.  The captured value is attrs[href], which may be None. -/
def handle_starttag (st : PState) (t : Tag) : Except String PState :=
  match classMarker t with
  | .error e => .error e
  | .ok mk =>
    let st1 := if mk then { st with in_result := true } else st
    .ok (if st1.in_result ∧ t.name = "a" ∧ (attrGet "href" t.attrs).isSome then
          { book_links := st1.book_links ++ [(attrGet "href" t.attrs).getD none],
            in_result := false }
        else st1)

/-- Feed every start-tag event to the parser, stopping at the first raised
exception, as parser.feed does. -/
def feedTags (st : PState) : List Tag → Except String PState
  | [] => .ok st
  | t :: ts =>
    match handle_starttag st t with
    | .error e => .error e
    | .ok st2 => feedTags st2 ts

/-- The Link Extractor: run the parser over the document events and read
book_links (lines 113 to 116 of the source). -/
def extractLinks (doc : List Tag) : Except String (List (Option String)) :=
  match feedTags ⟨[], false⟩ doc with
  | .error e => .error e
  | .ok st => .ok st.book_links

/-- Marker test as the claim words it: a list item whose class attribute
carries a value containing booklink. -/
def isMarkerTag (t : Tag) : Bool :=
  t.name == "li" &&
    (match attrGet "class" t.attrs with
     | some (some v) => containsSub "booklink" v
     | _ => false)

/-- Href of an anchor element, when the anchor carries a valued href. -/
def anchorHref (t : Tag) : Option String :=
  if t.name == "a" then
    match attrGet "href" t.attrs with
    | some (some h) => some h
    | _ => none
  else none

/-- Link extraction as the claim words it: an armed flag is set by each
booklink marker, the first href-bearing anchor while armed is captured and
the flag is reset. -/
def specScan : Bool → List Tag → List String
  | _, [] => []
  | armed, t :: ts =>
    match (if armed || isMarkerTag t then anchorHref t else none) with
    | some h => h :: specScan false ts
    | none => specScan (armed || isMarkerTag t) ts

/-- Claim-level Link Extractor. -/
def specLinks (doc : List Tag) : List String := specScan false doc

/-- Every attribute of every tag carries a value (HTMLParser would report
no None value on such a document). -/
def allValuedB (doc : List Tag) : Bool :=
  doc.all (fun t => t.attrs.all (fun p => p.2.isSome))

/-- Whitespace as str.strip() removes it: space, tab, newline, carriage
return, vertical tab, form feed. -/
def isPySpace (c : Char) : Bool :=
  c == ' ' || c == '\t' || c == '\n' || c == '\r' || c == '\x0b' || c == '\x0c'

/-- Model of str.strip(). -/
def pyStrip (s : String) : String :=
  String.mk (((s.toList.dropWhile isPySpace).reverse.dropWhile isPySpace).reverse)

/-- Hexadecimal digit, uppercase, as urllib percent-encoding writes it. -/
def hexDigit (n : Nat) : Char :=
  if n < 10 then Char.ofNat (48 + n) else Char.ofNat (55 + n)

/-- Model of urllib.parse.quote for ASCII input: unreserved characters and
the default safe slash pass through, everything else is percent-encoded. -/
def urlQuote (s : String) : String :=
  String.join (s.toList.map (fun c =>
    if c.isAlphanum || c == '_' || c == '.' || c == '-' || c == '~' || c == '/' then
      String.mk [c]
    else
      String.mk ['%', hexDigit (c.toNat / 16), hexDigit (c.toNat % 16)]))

/-- Model of str.split applied to the slash separator. -/
def splitSlash : List Char → List (List Char)
  | [] => [[]]
  | c :: cs =>
    if c = '/' then [] :: splitSlash cs
    else
      match splitSlash cs with
      | [] => [[c]]
      | r :: rs => (c :: r) :: rs

/-- Search URL of line 108 of the source. -/
def searchUrlOf (title : String) : String :=
  "https://www.gutenberg.org/ebooks/search/?query=" ++ urlQuote title

/-- Book id of line 121: the part of the link after the last slash. -/
def bookIdOf (link : String) : String :=
  String.mk ((splitSlash link.toList).getLastD [])

/-- Text URL of line 122 of the source. -/
def textUrlOf (bookId : String) : String :=
  "https://www.gutenberg.org/files/" ++ bookId ++ "/" ++ bookId ++ "-0.txt"

/-- The two tables of books.db: Books rows and Words rows, each in
insertion order.  A Words row is (book_title, word, frequency). -/
structure DB where
  books : List String
  words : List (String × String × Nat)
deriving DecidableEq

/-- The store as setup_database leaves it. -/
def emptyDB : DB := ⟨[], []⟩

/-- Network oracle: one function per call site of urllib.request.urlopen,
giving the decoded body or the text of the raised exception.  The search
page body is delivered as its start-tag events (see the file comment). -/
structure Network where
  fetchSearch : String → Except String (List Tag)
  fetchText : String → Except String String

/-- Observable outcome of one GUI action: the store afterwards, the final
content of the output box (the lines inserted after its last clear), and
the URLs requested. -/
structure RunResult where
  db : DB
  display : List String
  reqs : List String
deriving DecidableEq

/-- The message of lines 117 and 146. -/
def notFoundMsg : String := "Book was not found.\n"

/-- The message of line 190. -/
def emptyInputMsg : String := "Please enter a title or URL.\n"

/-- One displayed result line (lines 91, 143, 181). -/
def fmtLine (p : String × Nat) : String := p.1 ++ ": " ++ toString p.2 ++ "\n"

/-- One displayed error line of the direct-URL handler (line 185). -/
def errLine (e : String) : String := "Error: " ++ e ++ "\n"

/-- Message of the NameError raised at line 174: the name extracted_title
is bound nowhere in the module, so evaluating the parameter tuple of the
Books insert raises before any row is written (text kept without the
quotes Python puts around the name). -/
def nameErrorMsg : String := "NameError: name extracted_title is not defined"

/-- INSERT OR IGNORE INTO Books (line 135): append the title unless some
Books row already holds it (title is the primary key). -/
def recordBook (t : String) (db : DB) : DB :=
  if t ∈ db.books then db else { db with books := db.books ++ [t] }

/-- executemany INSERT INTO Words (line 136): append one row per pair. -/
def recordWords (t : String) (pairs : List (String × Nat)) (db : DB) : DB :=
  { db with words := db.words ++ pairs.map (fun p => (t, p.1, p.2)) }

/-- SELECT word, frequency FROM Words WHERE book_title equals the given
title ORDER BY frequency DESC LIMIT 10 (line 83): rows of the title,
sorted by frequency descending (stable here; SQLite leaves the tie order
open), first ten. -/
def findTopWords (db : DB) (t : String) : List (String × Nat) :=
  (sortDesc ((db.words.filter (fun r => r.1 == t)).map (fun r => (r.2.1, r.2.2)))).take 10

/-- Lines 97 to 146 of the source: search the catalog, follow the first
link, download the text, count words, store and display.  All four failure
paths (transport failure on the search, parser exception, no link or a
valueless first link, transport or decode failure on the text) end in the
single not-found message with the store untouched; the no-link path prints
it at line 117, the others reach the handler at line 145. -/
def fetch_and_process_book (net : Network) (db : DB) (title : String) : RunResult :=
  match net.fetchSearch (searchUrlOf title) with
  | .error _ => ⟨db, [notFoundMsg], [searchUrlOf title]⟩
  | .ok tags =>
    match extractLinks tags with
    | .error _ => ⟨db, [notFoundMsg], [searchUrlOf title]⟩
    | .ok [] => ⟨db, [notFoundMsg], [searchUrlOf title]⟩
    | .ok (none :: _) => ⟨db, [notFoundMsg], [searchUrlOf title]⟩
    | .ok (some link :: _) =>
      match net.fetchText (textUrlOf (bookIdOf link)) with
      | .error _ => ⟨db, [notFoundMsg], [searchUrlOf title, textUrlOf (bookIdOf link)]⟩
      | .ok text =>
        let top := top_words text
        ⟨recordWords title top (recordBook title db), top.map fmtLine,
          [searchUrlOf title, textUrlOf (bookIdOf link)]⟩

/-- Lines 69 to 93 of the source: read the store; display the rows when
any exist, otherwise fall through to the remote path. -/
def search_book (net : Network) (db : DB) (title : String) : RunResult :=
  let res := findTopWords db title
  if res ≠ [] then ⟨db, res.map fmtLine, []⟩
  else fetch_and_process_book net db title

/-- Lines 150 to 190 of the source.  A non-empty stripped title goes to
search_book; else a non-empty stripped URL is fetched directly, and the
persistence step then raises the NameError of line 174 (extracted_title is
unbound) before any row is written, so the handler at line 183 shows an
error line; else the empty-input message. -/
def process_input (net : Network) (db : DB) (title url : String) : RunResult :=
  let t := pyStrip title
  let u := pyStrip url
  if t ≠ "" then search_book net db t
  else if u ≠ "" then
    match net.fetchText u with
    | .error e => ⟨db, [errLine e], [u]⟩
    | .ok _ => ⟨db, [errLine nameErrorMsg], [u]⟩
  else ⟨db, [emptyInputMsg], []⟩

/-- Store of the end-to-end example of the spec: one book with two stored
pairs. -/
def dbMoby : DB := ⟨["Moby"], [("Moby", "whale", 50), ("Moby", "sea", 40)]⟩

/-- Oracle that fails every request: a run that touches the network with
it can only see the failure branches. -/
def netDown : Network := ⟨fun _ => .error "urlopen error", fun _ => .error "urlopen error"⟩

/-- Oracle whose text fetch always succeeds while the search fetch fails:
exercises the direct-URL path with a successful download. -/
def netTextOk : Network := ⟨fun _ => .error "urlopen error", fun _ => .ok "some words here"⟩

/-- Store invariant of C7: every title present in Words has at most ten
rows and a Books row. -/
def dbInv (db : DB) : Prop :=
  ∀ t : String, (db.words.filter (fun r => r.1 == t)).length ≤ 10 ∧
    (t ∈ db.words.map (fun r => r.1) → t ∈ db.books)

/-- One user action: the oracle in effect and the two field contents when
the button is pressed. -/
structure Op where
  net : Network
  title : String
  url : String

/-- The store after a sequence of user actions, starting from the empty
store setup_database leaves. -/
def runOps (ops : List Op) : DB :=
  ops.foldl (fun db op => (process_input op.net db op.title op.url).db) emptyDB

/-- Search-result events delivered for the successful end-to-end run of
the C7 witness. -/
def tags7 : List Tag :=
  [⟨"li", [("class", some "booklink")]⟩, ⟨"a", [("href", some "/ebooks/7")]⟩]

/-- Oracle for the C7 witness: the search succeeds with one result and the
text download returns a five-word text. -/
def net7 : Network := ⟨fun _ => .ok tags7, fun _ => .ok "dog dog dog cat cat"⟩

theorem scanWords_run (cs : List Char) : ∀ (acc : List Char) (ok : Bool),
    scanWords ok acc cs =
      (if ok && decide (3 ≤ (acc.reverse ++ cs.takeWhile Char.isAlpha).length)
          && !optIsWord (cs.dropWhile Char.isAlpha).head? then
        [acc.reverse ++ cs.takeWhile Char.isAlpha] else []) ++
      (match cs.dropWhile Char.isAlpha with
       | [] => []
       | c :: cs2 => scanWords (!isWordChar c) [] cs2) := by
  induction cs with
  | nil => intro acc ok; simp [scanWords, optIsWord]
  | cons c cs ih =>
    intro acc ok
    by_cases h : c.isAlpha
    · simp only [scanWords, h, if_true, List.takeWhile_cons, List.dropWhile_cons, ih (c :: acc) ok,
        List.reverse_cons, List.append_assoc, List.singleton_append]
    · simp only [scanWords, h, if_false, List.takeWhile_cons, List.dropWhile_cons,
        Bool.false_eq_true, List.append_nil, List.head?_cons, optIsWord, List.length_reverse]

theorem dropWhile_head_not_alpha :
    ∀ (l : List Char) (d : Char) (ds : List Char),
      l.dropWhile Char.isAlpha = d :: ds → d.isAlpha = false := by
  intro l
  induction l with
  | nil => intro d ds h; simp [List.dropWhile] at h
  | cons a l ih =>
    intro d ds h
    by_cases ha : a.isAlpha
    · rw [List.dropWhile_cons, if_pos ha] at h
      exact ih d ds h
    · rw [List.dropWhile_cons, if_neg ha] at h
      cases h
      exact Bool.eq_false_iff.mpr ha

theorem scanWords_eq_runsCtx :
    ∀ (n : Nat) (cs : List Char), cs.length ≤ n → ∀ p : Option Char,
      scanWords (!optIsWord p) [] cs = ctxTokens (runsCtx p cs) := by
  intro n
  induction n with
  | zero =>
    intro cs hcs p
    rw [List.length_eq_zero.mp (Nat.le_zero.mp hcs)]
    simp [scanWords, runsCtx, ctxTokens]
  | succ n ih =>
    intro cs hcs p
    match cs with
    | [] => simp [scanWords, runsCtx, ctxTokens]
    | c :: cs2 =>
      by_cases h : c.isAlpha
      · rw [scanWords_run, runsCtx]
        rw [if_pos h]
        simp only [List.takeWhile_cons, List.dropWhile_cons, h, if_true, ctxTokens,
          List.filter_cons, List.nil_append]
        have hrest : (cs2.dropWhile Char.isAlpha).length ≤ cs2.length :=
          (List.dropWhile_suffix _).length_le
        have hcs2 : cs2.length ≤ n := Nat.le_of_succ_le_succ (by simpa using hcs)
        by_cases hc : (!optIsWord p && decide (3 ≤ (c :: cs2.takeWhile Char.isAlpha).length)
            && !optIsWord (cs2.dropWhile Char.isAlpha).head?) = true
        · rw [if_pos (by simpa using hc), if_pos hc]
          simp only [List.reverse_nil, List.nil_append, List.singleton_append, List.cons_append]
          congr 1
          match hd : cs2.dropWhile Char.isAlpha with
          | [] => simp [runsCtx, ctxTokens]
          | d :: ds =>
            have hda : d.isAlpha = false := dropWhile_head_not_alpha cs2 d ds hd
            rw [runsCtx, if_neg (by simp [hda])]
            have hds : ds.length ≤ n := by
              have : (d :: ds).length ≤ cs2.length := hd ▸ hrest
              simp at this
              omega
            exact ih ds hds (some d)
        · rw [if_neg (by simpa using hc), if_neg hc]
          simp only [List.nil_append]
          match hd : cs2.dropWhile Char.isAlpha with
          | [] => simp [runsCtx, ctxTokens]
          | d :: ds =>
            have hda : d.isAlpha = false := dropWhile_head_not_alpha cs2 d ds hd
            rw [runsCtx, if_neg (by simp [hda])]
            have hds : ds.length ≤ n := by
              have : (d :: ds).length ≤ cs2.length := hd ▸ hrest
              simp at this
              omega
            exact ih ds hds (some d)
      · rw [runsCtx, if_neg h]
        have h1 : scanWords (!optIsWord p) [] (c :: cs2) =
            scanWords (!isWordChar c) [] cs2 := by
          simp [scanWords, h]
        rw [h1]
        have hcs2 : cs2.length ≤ n := Nat.le_of_succ_le_succ (by simpa using hcs)
        exact ih cs2 hcs2 (some c)

theorem wcWords_eq_amendedTokens (s : String) : wcWords s = amendedTokens s := by
  have := scanWords_eq_runsCtx (s.toList.map Char.toLower).length
    (s.toList.map Char.toLower) (Nat.le_refl _) none
  simp only [wcWords, amendedTokens]
  rw [show (true : Bool) = !optIsWord none from rfl]
  rw [this]

example : wcWords "Cat cat dog dog dog \x27hi\x27 12345 a an" =
    ["cat", "cat", "dog", "dog", "dog"] := by decide

example : wcWords "abc1" = [] := by decide

example : claimTokens "abc1" = ["abc"] := by decide

example : wcWords "ab_cde fgh" = ["fgh"] := by decide

/-- C1: the claim reads the tokenizer as taking every maximal run of ASCII
letters of length at least three.  False: the regex of the source also
requires a word boundary on both sides, so a letter run touching a digit
or an underscore is dropped wholesale.  On the input abc1 the code yields
no token at all while the claimed rule yields the token abc. -/
theorem c1_counterexample_tokenizer :
    wcWords "abc1" = [] ∧ claimTokens "abc1" = ["abc"] ∧
      wcWords "abc1" ≠ claimTokens "abc1" := by decide

/-- C1 (amended): for every input text the Word-Counter tokenizes exactly
the maximal runs of ASCII letters of length at least three whose
neighbouring characters, when present, are not word characters (ASCII
digits or underscores next to a run suppress it, per the word-boundary
assertions), case-folded to lowercase; in particular on the claimed input
(Cat cat dog dog dog, a quoted hi, 12345, a, an) the resulting counts are
exactly dog three and cat two. -/
theorem c1_amended_tokenizer :
    (∀ s : String, wcWords s = amendedTokens s) ∧
      counterOf (wcWords "Cat cat dog dog dog \x27hi\x27 12345 a an") =
        [("cat", 2), ("dog", 3)] :=
  ⟨wcWords_eq_amendedTokens, by decide⟩

theorem firstIdx_append_of_mem (w : String) :
    ∀ (l1 l2 : List String), w ∈ l1 → firstIdx w (l1 ++ l2) = firstIdx w l1 := by
  intro l1
  induction l1 with
  | nil => intro l2 h; cases h
  | cons x xs ih =>
    intro l2 h
    by_cases hx : x = w
    · simp [firstIdx, hx]
    · have : w ∈ xs := by
        cases h with
        | head => exact absurd rfl hx
        | tail _ h => exact h
      simp [firstIdx, hx, ih l2 this]

theorem firstIdx_lt_length (w : String) :
    ∀ l : List String, w ∈ l → firstIdx w l < l.length := by
  intro l
  induction l with
  | nil => intro h; cases h
  | cons x xs ih =>
    intro h
    by_cases hx : x = w
    · simp [firstIdx, hx]
    · have : w ∈ xs := by
        cases h with
        | head => exact absurd rfl hx
        | tail _ h => exact h
      simp only [firstIdx, hx, if_false, List.length_cons]
      exact Nat.succ_lt_succ (ih this)

theorem firstIdx_append_self (w : String) :
    ∀ l : List String, w ∉ l → firstIdx w (l ++ [w]) = l.length := by
  intro l
  induction l with
  | nil => intro _; simp [firstIdx]
  | cons x xs ih =>
    intro h
    have hx : ¬(x = w) := fun he => h (he ▸ List.mem_cons_self x xs)
    have hxs : w ∉ xs := fun hm => h (List.mem_cons_of_mem x hm)
    simp [firstIdx, hx, ih hxs]

theorem bump_keys_of_mem (w : String) :
    ∀ L : List (String × Nat), w ∈ L.map Prod.fst →
      (bump w L).map Prod.fst = L.map Prod.fst := by
  intro L
  induction L with
  | nil => intro h; cases h
  | cons p ps ih =>
    intro h
    by_cases hp : p.1 = w
    · simp [bump, hp]
    · have : w ∈ ps.map Prod.fst := by
        simp only [List.map_cons, List.mem_cons] at h
        exact h.resolve_left (fun he => hp he.symm)
      simp [bump, hp, ih this]

theorem bump_keys_of_not_mem (w : String) :
    ∀ L : List (String × Nat), w ∉ L.map Prod.fst →
      (bump w L).map Prod.fst = L.map Prod.fst ++ [w] := by
  intro L
  induction L with
  | nil => intro _; simp [bump]
  | cons p ps ih =>
    intro h
    have hp : ¬(p.1 = w) := fun he => h (by simp [he])
    have hps : w ∉ ps.map Prod.fst := fun hm => h (by simp [hm])
    simp [bump, hp, ih hps]

theorem counterOf_concat (ws : List String) (w : String) :
    counterOf (ws ++ [w]) = bump w (counterOf ws) := by
  simp [counterOf, List.foldl_append]

/-- Invariant of the Counter model: the keys are distinct, they are exactly
the words of the list, and they stand in order of first occurrence. -/
theorem counterOf_inv (ws : List String) :
    ((counterOf ws).map Prod.fst).Nodup ∧
      (∀ w ∈ (counterOf ws).map Prod.fst, w ∈ ws) ∧
      (∀ w ∈ ws, w ∈ (counterOf ws).map Prod.fst) ∧
      ((counterOf ws).map Prod.fst).Pairwise
        (fun a b => firstIdx a ws < firstIdx b ws) := by
  induction ws using List.reverseRecOn with
  | nil => simp [counterOf]
  | append_singleton ws w ih =>
    obtain ⟨hnd, hsub, hsup, hpw⟩ := ih
    rw [counterOf_concat]
    by_cases hw : w ∈ (counterOf ws).map Prod.fst
    · rw [bump_keys_of_mem w _ hw]
      refine ⟨hnd, ?_, ?_, ?_⟩
      · intro x hx
        exact List.mem_append_left _ (hsub x hx)
      · intro x hx
        rcases List.mem_append.mp hx with hx | hx
        · exact hsup x hx
        · rcases List.mem_singleton.mp hx with rfl
          exact hw
      · refine hpw.imp_of_mem ?_
        intro a b ha hb hab
        rw [firstIdx_append_of_mem a ws [w] (hsub a ha),
          firstIdx_append_of_mem b ws [w] (hsub b hb)]
        exact hab
    · rw [bump_keys_of_not_mem w _ hw]
      have hwws : w ∉ ws := fun hm => hw (hsup w hm)
      refine ⟨?_, ?_, ?_, ?_⟩
      · simp [List.nodup_append, hnd, hw]
      · intro x hx
        rcases List.mem_append.mp hx with hx | hx
        · exact List.mem_append_left _ (hsub x hx)
        · rcases List.mem_singleton.mp hx with rfl
          exact List.mem_append_right _ (List.mem_singleton_self x)
      · intro x hx
        rcases List.mem_append.mp hx with hx | hx
        · exact List.mem_append_left _ (hsup x hx)
        · rcases List.mem_singleton.mp hx with rfl
          exact List.mem_append_right _ (List.mem_singleton_self x)
      · rw [List.pairwise_append]
        refine ⟨hpw.imp_of_mem ?_, List.pairwise_singleton _ _, ?_⟩
        · intro a b ha hb hab
          rw [firstIdx_append_of_mem a ws [w] (hsub a ha),
            firstIdx_append_of_mem b ws [w] (hsub b hb)]
          exact hab
        · intro a ha b hb
          rcases List.mem_singleton.mp hb with rfl
          rw [firstIdx_append_of_mem a ws [b] (hsub a ha),
            firstIdx_append_self b ws hwws]
          exact firstIdx_lt_length a ws (hsub a ha)

theorem insertDesc_mem (p q : String × Nat) :
    ∀ l : List (String × Nat), q ∈ insertDesc p l ↔ q = p ∨ q ∈ l := by
  intro l
  induction l with
  | nil => simp [insertDesc]
  | cons r rs ih =>
    by_cases hr : r.2 ≤ p.2
    · simp [insertDesc, hr]
    · simp only [insertDesc, hr, if_false, List.mem_cons, ih]
      tauto

theorem sortDesc_mem (q : String × Nat) :
    ∀ l : List (String × Nat), q ∈ sortDesc l ↔ q ∈ l := by
  intro l
  induction l with
  | nil => simp [sortDesc]
  | cons p ps ih => simp [sortDesc, insertDesc_mem, ih]

theorem insertDesc_length (p : String × Nat) :
    ∀ l : List (String × Nat), (insertDesc p l).length = l.length + 1 := by
  intro l
  induction l with
  | nil => rfl
  | cons r rs ih =>
    by_cases hr : r.2 ≤ p.2
    · simp [insertDesc, hr]
    · simp [insertDesc, hr, ih]

theorem sortDesc_length :
    ∀ l : List (String × Nat), (sortDesc l).length = l.length := by
  intro l
  induction l with
  | nil => rfl
  | cons p ps ih => simp [sortDesc, insertDesc_length, ih]

theorem insertDesc_pairwise (R' : (String × Nat) → (String × Nat) → Prop)
    (p : String × Nat) :
    ∀ l : List (String × Nat),
      l.Pairwise (fun a b => b.2 ≤ a.2 ∧ (a.2 = b.2 → R' a b)) →
      (∀ q ∈ l, p.2 = q.2 → R' p q) →
      (insertDesc p l).Pairwise (fun a b => b.2 ≤ a.2 ∧ (a.2 = b.2 → R' a b)) := by
  intro l
  induction l with
  | nil => intro _ _; simp [insertDesc]
  | cons q qs ih =>
    intro hl hp
    rw [List.pairwise_cons] at hl
    obtain ⟨hq, hqs⟩ := hl
    by_cases hc : q.2 ≤ p.2
    · rw [insertDesc, if_pos hc, List.pairwise_cons]
      refine ⟨?_, List.pairwise_cons.mpr ⟨hq, hqs⟩⟩
      intro x hx
      rcases List.mem_cons.mp hx with rfl | hx
      · exact ⟨hc, hp x (List.mem_cons_self _ _)⟩
      · obtain ⟨hle, _⟩ := hq x hx
        exact ⟨Nat.le_trans hle hc, hp x (List.mem_cons_of_mem _ hx)⟩
    · rw [insertDesc, if_neg hc, List.pairwise_cons]
      refine ⟨?_, ih hqs (fun x hx => hp x (List.mem_cons_of_mem _ hx))⟩
      intro x hx
      rcases (insertDesc_mem p x qs).mp hx with rfl | hx
      · exact ⟨Nat.le_of_lt (Nat.lt_of_not_le hc),
          fun he => absurd (Nat.le_of_eq he) hc⟩
      · exact hq x hx

theorem sortDesc_pairwise (R' : (String × Nat) → (String × Nat) → Prop) :
    ∀ l : List (String × Nat),
      l.Pairwise (fun a b => a.2 = b.2 → R' a b) →
      (sortDesc l).Pairwise (fun a b => b.2 ≤ a.2 ∧ (a.2 = b.2 → R' a b)) := by
  intro l
  induction l with
  | nil => intro _; simp [sortDesc]
  | cons p ps ih =>
    intro h
    rw [List.pairwise_cons] at h
    obtain ⟨hp, hps⟩ := h
    exact insertDesc_pairwise R' p (sortDesc ps) (ih hps)
      (fun q hq => hp q ((sortDesc_mem q ps).mp hq))

/-- C3: on every input text the Word-Counter returns at most ten pairs,
sorted by count descending, and two words of equal count appear in the
order of their first occurrence among the tokens of the text. -/
theorem c3_top_words_order :
    ∀ text : String,
      (top_words text).length ≤ 10 ∧
        (top_words text).Pairwise (fun p q =>
          q.2 ≤ p.2 ∧
            (p.2 = q.2 → firstIdx p.1 (wcWords text) < firstIdx q.1 (wcWords text))) := by
  intro text
  constructor
  · exact (List.length_take_le 10 _).trans_eq rfl
  · have hinv := (counterOf_inv (wcWords text)).2.2.2
    have hpairs : (counterOf (wcWords text)).Pairwise
        (fun p q => p.2 = q.2 → firstIdx p.1 (wcWords text) < firstIdx q.1 (wcWords text)) := by
      have hm := (List.pairwise_map.mp hinv)
      exact hm.imp (fun h => fun _ => h)
    have hs := sortDesc_pairwise _ _ hpairs
    exact hs.sublist (List.take_sublist 10 _)

theorem attrGet_valued_ne_some_none (k : String) (attrs : List (String × Option String))
    (h : attrs.all (fun p => p.2.isSome) = true) : attrGet k attrs ≠ some none := by
  intro hc
  rcases Option.map_eq_some'.mp hc with ⟨q, hq, hq2⟩
  have hmem : q ∈ attrs := List.mem_reverse.mp (List.mem_of_find?_eq_some hq)
  have := List.all_eq_true.mp h q hmem
  rw [hq2] at this
  simp at this

theorem classMarker_of_valued (t : Tag) (h : t.attrs.all (fun p => p.2.isSome) = true) :
    classMarker t = .ok (isMarkerTag t) := by
  unfold classMarker isMarkerTag
  by_cases hn : t.name = "li"
  · rw [if_pos hn]
    match hc : attrGet "class" t.attrs with
    | none => simp [hn, hc]
    | some none => exact absurd hc (attrGet_valued_ne_some_none "class" t.attrs h)
    | some (some v) => simp [hn, hc]
  · simp [hn]

theorem anchorHref_isSome_of_valued (t : Tag) (h : t.attrs.all (fun p => p.2.isSome) = true)
    (hn : t.name = "a") (hh : (attrGet "href" t.attrs).isSome = true) :
    ∃ v, attrGet "href" t.attrs = some (some v) ∧ anchorHref t = some v := by
  match hc : attrGet "href" t.attrs with
  | none => rw [hc] at hh; simp at hh
  | some none => exact absurd hc (attrGet_valued_ne_some_none "href" t.attrs h)
  | some (some v) => exact ⟨v, rfl, by simp [anchorHref, hn, hc]⟩

theorem specScan_head_none (t : Tag) (armed2 : Bool)
    (hv : t.attrs.all (fun p => p.2.isSome) = true)
    (hcap : ¬(armed2 = true ∧ t.name = "a" ∧ (attrGet "href" t.attrs).isSome = true)) :
    (if armed2 then anchorHref t else none) = none := by
  by_cases ha : armed2 = true
  · rw [if_pos ha]
    unfold anchorHref
    by_cases hn : t.name = "a"
    · rw [if_pos (by simp [hn])]
      match hc : attrGet "href" t.attrs with
      | none => rfl
      | some none => exact absurd hc (attrGet_valued_ne_some_none "href" t.attrs hv)
      | some (some v) => exact absurd ⟨ha, hn, by simp [hc]⟩ hcap
    · rw [if_neg (by simp [hn])]
  · rw [if_neg ha]

theorem feedTags_valued (ts : List Tag) :
    ∀ (links : List (Option String)) (armed : Bool),
      allValuedB ts = true →
      ∃ b : Bool, feedTags ⟨links, armed⟩ ts =
        .ok ⟨links ++ (specScan armed ts).map some, b⟩ := by
  induction ts with
  | nil => intro links armed _; exact ⟨armed, by simp [feedTags, specScan]⟩
  | cons t ts ih =>
    intro links armed hv
    have hvt : t.attrs.all (fun p => p.2.isSome) = true := by
      have := List.all_eq_true.mp hv t (List.mem_cons_self t ts)
      simpa using this
    have hvts : allValuedB ts = true := by
      refine List.all_eq_true.mpr ?_
      intro x hx
      exact List.all_eq_true.mp hv x (List.mem_cons_of_mem t hx)
    have hst1 : (if isMarkerTag t then { book_links := links, in_result := true }
        else (⟨links, armed⟩ : PState)) = ⟨links, armed || isMarkerTag t⟩ := by
      by_cases hm : isMarkerTag t = true
      · simp [hm]
      · simp [hm, Bool.eq_false_iff.mpr hm]
    by_cases hcap : (armed || isMarkerTag t) = true ∧ t.name = "a" ∧
        (attrGet "href" t.attrs).isSome = true
    · obtain ⟨harm, hn, hh⟩ := hcap
      obtain ⟨v, hcv, hav⟩ := anchorHref_isSome_of_valued t hvt hn hh
      have hhs : handle_starttag ⟨links, armed⟩ t = .ok ⟨links ++ [some v], false⟩ := by
        rw [handle_starttag, classMarker_of_valued t hvt]
        simp only [hst1]
        rw [if_pos ⟨harm, hn, hh⟩]
        rw [hcv]
        rfl
      have hspec : specScan armed (t :: ts) = v :: specScan false ts := by
        rw [specScan]
        rw [if_pos harm, hav]
      obtain ⟨b, hb⟩ := ih (links ++ [some v]) false hvts
      refine ⟨b, ?_⟩
      rw [feedTags, hhs, hspec]
      show feedTags ⟨links ++ [some v], false⟩ ts = _
      rw [hb]
      simp [List.append_assoc]
    · have hhead := specScan_head_none t (armed || isMarkerTag t) hvt hcap
      have hhs : handle_starttag ⟨links, armed⟩ t = .ok ⟨links, armed || isMarkerTag t⟩ := by
        rw [handle_starttag, classMarker_of_valued t hvt]
        simp only [hst1]
        rw [if_neg hcap]
      have hspec : specScan armed (t :: ts) = specScan (armed || isMarkerTag t) ts := by
        rw [specScan, hhead]
      obtain ⟨b, hb⟩ := ih links (armed || isMarkerTag t) hvts
      refine ⟨b, ?_⟩
      rw [feedTags, hhs, hspec]
      show feedTags ⟨links, armed || isMarkerTag t⟩ ts = _
      exact hb

theorem extractLinks_valued (doc : List Tag) (h : allValuedB doc = true) :
    extractLinks doc = .ok ((specLinks doc).map some) := by
  obtain ⟨b, hb⟩ := feedTags_valued doc [] false h
  simp [extractLinks, hb, specLinks]

/-- C4: the claim makes the Link Extractor total, returning a link sequence
on every HTML document.  False: on a document with a valueless class
attribute on a list item (HTMLParser reports the value None), the
membership test booklink-in-None raises a TypeError, so the extractor
raises instead of returning any sequence, empty or not. -/
theorem c4_counterexample_link_extractor :
    extractLinks [⟨"li", [("class", none)]⟩] =
        .error "TypeError: argument of type NoneType is not iterable" ∧
      ¬extractLinks [⟨"li", [("class", none)]⟩] = .ok [] :=
  ⟨rfl, fun h => Except.noConfusion h⟩

/-- C4 (amended): on every HTML document whose attributes all carry values,
the Link Extractor returns, in document order, the href of the first
href-bearing anchor following each booklink list item, the marker being
reset after one capture; it returns the empty sequence when no
marker/anchor pair exists.  In particular a booklink item followed by an
anchor with href /ebooks/111 yields exactly that link; a marker with no
anchor before the next marker yields no link of its own; a second anchor
under one marker is not captured. -/
theorem c4_amended_link_extractor :
    (∀ doc : List Tag, allValuedB doc = true →
        extractLinks doc = .ok ((specLinks doc).map some)) ∧
      extractLinks [⟨"li", [("class", some "booklink")]⟩,
          ⟨"a", [("href", some "/ebooks/111")]⟩] = .ok [some "/ebooks/111"] ∧
      extractLinks [⟨"li", [("class", some "booklink")]⟩, ⟨"p", []⟩,
          ⟨"li", [("class", some "booklink")]⟩, ⟨"a", [("href", some "/x")]⟩] =
        .ok [some "/x"] ∧
      extractLinks [⟨"li", [("class", some "booklink")]⟩, ⟨"a", [("href", some "/x")]⟩,
          ⟨"a", [("href", some "/y")]⟩] = .ok [some "/x"] ∧
      extractLinks [⟨"div", []⟩, ⟨"a", [("href", some "/x")]⟩] = .ok [] :=
  ⟨extractLinks_valued, rfl, rfl, rfl, rfl⟩

theorem pairwise_count_trivial (l : List (String × Nat)) :
    l.Pairwise (fun a b => a.2 = b.2 → True) := by
  induction l with
  | nil => exact List.Pairwise.nil
  | cons p ps ih => exact List.Pairwise.cons (fun q _ _ => trivial) ih

theorem sortDesc_eq_nil_iff (l : List (String × Nat)) : sortDesc l = [] ↔ l = [] := by
  constructor
  · intro h
    have hl := sortDesc_length l
    rw [h] at hl
    exact (List.length_eq_zero.mp hl.symm)
  · intro h
    rw [h]
    rfl

theorem findTopWords_ne_nil (db : DB) (t : String)
    (h : db.words.filter (fun r => r.1 == t) ≠ []) : findTopWords db t ≠ [] := by
  intro hc
  unfold findTopWords at hc
  rcases List.take_eq_nil_iff.mp hc with h10 | hnil
  · exact absurd h10 (by decide)
  · exact h (List.map_eq_nil_iff.mp ((sortDesc_eq_nil_iff _).mp hnil))

theorem filter_eq_nil_of_findTopWords (db : DB) (t : String)
    (h : findTopWords db t = []) : db.words.filter (fun r => r.1 == t) = [] := by
  by_contra hc
  exact findTopWords_ne_nil db t hc h

theorem findTopWords_sorted (db : DB) (t : String) :
    (findTopWords db t).Pairwise (fun p q => q.2 ≤ p.2) := by
  have h := sortDesc_pairwise (fun _ _ => True)
    ((db.words.filter (fun r => r.1 == t)).map (fun r => (r.2.1, r.2.2)))
    (pairwise_count_trivial _)
  exact (h.imp (fun hab => hab.1)).sublist (List.take_sublist 10 _)

theorem findTopWords_mem (db : DB) (t : String) :
    ∀ p ∈ findTopWords db t, (t, p.1, p.2) ∈ db.words := by
  intro p hp
  have h1 : p ∈ sortDesc ((db.words.filter (fun r => r.1 == t)).map (fun r => (r.2.1, r.2.2))) :=
    (List.take_sublist 10 _).subset hp
  have h2 := (sortDesc_mem p _).mp h1
  rcases List.mem_map.mp h2 with ⟨r, hr, hrp⟩
  have hrw := List.mem_filter.mp hr
  obtain ⟨a, b, c⟩ := r
  cases hrp
  have hat : a = t := by simpa using hrw.2
  subst hat
  exact hrw.1

/-- C5: when the store holds at least one Words row for a title, the
lookup returns the stored pairs for that exact title, at most ten of them,
frequency descending, without touching the network or the store; and an
empty local read is no error, it sends the lookup to the remote path. -/
theorem c5_local_hit_no_network :
    (∀ (net : Network) (db : DB) (title : String),
        db.words.filter (fun r => r.1 == title) ≠ [] →
        (search_book net db title).db = db ∧
          (search_book net db title).reqs = [] ∧
          (search_book net db title).display = (findTopWords db title).map fmtLine ∧
          (findTopWords db title).length ≤ 10 ∧
          (findTopWords db title).Pairwise (fun p q => q.2 ≤ p.2) ∧
          (∀ p ∈ findTopWords db title, (title, p.1, p.2) ∈ db.words)) ∧
      (∀ (net : Network) (db : DB) (title : String),
        findTopWords db title = [] →
        search_book net db title = fetch_and_process_book net db title) := by
  constructor
  · intro net db title h
    have hne := findTopWords_ne_nil db title h
    simp only [search_book]
    rw [if_pos hne]
    exact ⟨rfl, rfl, rfl, List.length_take_le 10 _, findTopWords_sorted db title,
      findTopWords_mem db title⟩
  · intro net db title h
    simp only [search_book]
    rw [if_neg (by simp [h])]

theorem c5_witness :
    dbMoby.words.filter (fun r => r.1 == "Moby") ≠ [] ∧
      (search_book netDown dbMoby "Moby").db = dbMoby ∧
      (search_book netDown dbMoby "Moby").reqs = [] ∧
      findTopWords dbMoby "Nemo" = [] ∧
      search_book netDown dbMoby "Nemo" = fetch_and_process_book netDown dbMoby "Nemo" :=
  ⟨by decide, (c5_local_hit_no_network.1 netDown dbMoby "Moby" (by decide)).1,
    (c5_local_hit_no_network.1 netDown dbMoby "Moby" (by decide)).2.1, by decide,
    c5_local_hit_no_network.2 netDown dbMoby "Nemo" (by decide)⟩

/-- C6: every failure on the title-lookup path, be it a transport failure
on the search request, no usable link extracted (including a parser
exception or a valueless first link), or a failure fetching the text, ends
in the one generic not-found message with the store untouched; the model
returns a RunResult in every case, which is the shape of the no-exception
guarantee at the orchestrator boundary. -/
theorem c6_failure_collapse :
    ∀ (net : Network) (db : DB) (title : String),
      ((∃ e, net.fetchSearch (searchUrlOf title) = .error e) →
        fetch_and_process_book net db title = ⟨db, [notFoundMsg], [searchUrlOf title]⟩) ∧
      (∀ tags, net.fetchSearch (searchUrlOf title) = .ok tags →
        (∀ link rest, ¬extractLinks tags = .ok (some link :: rest)) →
        fetch_and_process_book net db title = ⟨db, [notFoundMsg], [searchUrlOf title]⟩) ∧
      (∀ tags link rest e, net.fetchSearch (searchUrlOf title) = .ok tags →
        extractLinks tags = .ok (some link :: rest) →
        net.fetchText (textUrlOf (bookIdOf link)) = .error e →
        fetch_and_process_book net db title =
          ⟨db, [notFoundMsg], [searchUrlOf title, textUrlOf (bookIdOf link)]⟩) := by
  intro net db title
  refine ⟨?_, ?_, ?_⟩
  · rintro ⟨e, he⟩
    simp only [fetch_and_process_book, he]
  · intro tags htags hno
    simp only [fetch_and_process_book, htags]
    match hE : extractLinks tags with
    | .error e => rfl
    | .ok [] => rfl
    | .ok (none :: rest) => rfl
    | .ok (some link :: rest) => exact absurd hE (hno link rest)
  · intro tags link rest e htags hlink htext
    simp only [fetch_and_process_book, htags, hlink, htext]

theorem c6_witness :
    (∃ e, netDown.fetchSearch (searchUrlOf "Moby") = .error e) ∧
      fetch_and_process_book netDown emptyDB "Moby" =
        ⟨emptyDB, [notFoundMsg], [searchUrlOf "Moby"]⟩ :=
  ⟨⟨"urlopen error", rfl⟩,
    (c6_failure_collapse netDown emptyDB "Moby").1 ⟨"urlopen error", rfl⟩⟩

/-- C2: with an empty stripped title and a non-empty stripped URL, the
direct-URL path always fails at the persistence step (the referenced
extracted_title is bound nowhere), so the handler prints an Error line and
nothing is written; when the download succeeds the line carries the
NameError, so no word/frequency pairs are ever displayed. -/
theorem c2_direct_url_name_error :
    ∀ (net : Network) (db : DB) (title url : String),
      pyStrip title = "" → pyStrip url ≠ "" →
      (process_input net db title url).db = db ∧
        (∃ e, (process_input net db title url).display = [errLine e]) ∧
        (∀ txt, net.fetchText (pyStrip url) = .ok txt →
          (process_input net db title url).display = [errLine nameErrorMsg]) := by
  intro net db title url ht hu
  have h1 : process_input net db title url =
      (match net.fetchText (pyStrip url) with
       | .error e => ⟨db, [errLine e], [pyStrip url]⟩
       | .ok _ => ⟨db, [errLine nameErrorMsg], [pyStrip url]⟩) := by
    simp only [process_input]
    rw [if_neg (by simp [ht]), if_pos hu]
  match hf : net.fetchText (pyStrip url) with
  | .error e =>
    rw [hf] at h1
    refine ⟨by rw [h1], ⟨e, by rw [h1]⟩, ?_⟩
    intro txt htxt
    exact Except.noConfusion htxt
  | .ok body =>
    rw [hf] at h1
    exact ⟨by rw [h1], ⟨nameErrorMsg, by rw [h1]⟩, fun txt _ => by rw [h1]⟩

theorem c2_witness :
    pyStrip "" = "" ∧ pyStrip " http://example.org/a.txt " ≠ "" ∧
      (process_input netTextOk emptyDB "" " http://example.org/a.txt ").db = emptyDB ∧
      (process_input netTextOk emptyDB "" " http://example.org/a.txt ").display =
        [errLine nameErrorMsg] :=
  ⟨by decide, by decide,
    (c2_direct_url_name_error netTextOk emptyDB "" " http://example.org/a.txt "
      (by decide) (by decide)).1,
    (c2_direct_url_name_error netTextOk emptyDB "" " http://example.org/a.txt "
      (by decide) (by decide)).2.2 "some words here" rfl⟩

/-- C9: with both stripped inputs empty the program shows exactly the
please-enter message, different from the not-found message, makes no
request and writes nothing. -/
theorem c9_empty_input :
    ∀ (net : Network) (db : DB) (title url : String),
      pyStrip title = "" → pyStrip url = "" →
      process_input net db title url = ⟨db, [emptyInputMsg], []⟩ ∧
        emptyInputMsg ≠ notFoundMsg := by
  intro net db title url ht hu
  constructor
  · simp only [process_input]
    rw [if_neg (by simp [ht]), if_neg (by simp [hu])]
  · decide

theorem c9_witness :
    pyStrip "  " = "" ∧ pyStrip "" = "" ∧
      process_input netDown emptyDB "  " "" = ⟨emptyDB, [emptyInputMsg], []⟩ ∧
      emptyInputMsg ≠ notFoundMsg :=
  ⟨by decide, by decide,
    (c9_empty_input netDown emptyDB "  " "" (by decide) (by decide)).1,
    (c9_empty_input netDown emptyDB "  " "" (by decide) (by decide)).2⟩

/-- C10: with a non-empty stripped title the whole observable outcome
(display, store, requests) is the same whatever stands in the URL field:
the title path never reads it. -/
theorem c10_url_ignored_with_title :
    ∀ (net : Network) (db : DB) (title u1 u2 : String),
      pyStrip title ≠ "" →
      process_input net db title u1 = process_input net db title u2 := by
  intro net db title u1 u2 ht
  simp only [process_input]
  rw [if_pos ht, if_pos ht]

theorem c10_witness :
    pyStrip "Moby" ≠ "" ∧
      process_input netDown emptyDB "Moby" "http://a" =
        process_input netDown emptyDB "Moby" "http://b" :=
  ⟨by decide, c10_url_ignored_with_title netDown emptyDB "Moby" "http://a" "http://b" (by decide)⟩

/-- C8: the Books insert is idempotent: inserting a title twice into a
store whose Books rows are distinct (title is the primary key) changes
nothing the second time and leaves exactly one row with that title. -/
theorem c8_record_book_idempotent :
    ∀ (db : DB) (t : String),
      db.books.Nodup →
      recordBook t (recordBook t db) = recordBook t db ∧
        (recordBook t (recordBook t db)).books.count t = 1 := by
  intro db t hnd
  by_cases hm : t ∈ db.books
  · have h1 : recordBook t db = db := by simp [recordBook, hm]
    rw [h1]
    refine ⟨h1, ?_⟩
    rw [h1]
    have hle := List.nodup_iff_count_le_one.mp hnd t
    have hpos := List.count_pos_iff.mpr hm
    omega
  · have h1 : recordBook t db = ⟨db.books ++ [t], db.words⟩ := by
      simp [recordBook, hm]
    have h2 : recordBook t (⟨db.books ++ [t], db.words⟩ : DB) =
        ⟨db.books ++ [t], db.words⟩ := by
      have hm2 : t ∈ (⟨db.books ++ [t], db.words⟩ : DB).books := by simp
      simp [recordBook, hm2]
    refine ⟨by rw [h1, h2], ?_⟩
    rw [h1, h2]
    show (db.books ++ [t]).count t = 1
    rw [List.count_append, List.count_eq_zero.mpr hm]
    simp

theorem c8_witness :
    emptyDB.books.Nodup ∧
      recordBook "Dune" (recordBook "Dune" emptyDB) = recordBook "Dune" emptyDB ∧
      (recordBook "Dune" (recordBook "Dune" emptyDB)).books.count "Dune" = 1 :=
  ⟨List.nodup_nil,
    (c8_record_book_idempotent emptyDB "Dune" List.nodup_nil).1,
    (c8_record_book_idempotent emptyDB "Dune" List.nodup_nil).2⟩

theorem recordBook_words (s : String) (db : DB) : (recordBook s db).words = db.words := by
  unfold recordBook
  split <;> rfl

theorem recordBook_mem_self (s : String) (db : DB) : s ∈ (recordBook s db).books := by
  unfold recordBook
  by_cases h : s ∈ db.books
  · rw [if_pos h]; exact h
  · rw [if_neg h]; simp

theorem recordBook_books_mono (s x : String) (db : DB) (h : x ∈ db.books) :
    x ∈ (recordBook s db).books := by
  unfold recordBook
  by_cases hs : s ∈ db.books
  · rw [if_pos hs]; exact h
  · rw [if_neg hs]; exact List.mem_append_left _ h

theorem emptyDB_inv : dbInv emptyDB := by
  intro t
  constructor
  · simp [emptyDB]
  · intro h
    simp [emptyDB] at h

theorem write_inv (db : DB) (title : String) (pairs : List (String × Nat))
    (hInv : dbInv db) (hlen : pairs.length ≤ 10)
    (hemp : db.words.filter (fun r => r.1 == title) = []) :
    dbInv (recordWords title pairs (recordBook title db)) := by
  intro t
  have hw : (recordWords title pairs (recordBook title db)).words =
      db.words ++ pairs.map (fun p => (title, p.1, p.2)) := by
    unfold recordWords
    rw [recordBook_words]
  have hb : (recordWords title pairs (recordBook title db)).books =
      (recordBook title db).books := rfl
  constructor
  · rw [hw, List.filter_append]
    by_cases hteq : title = t
    · subst hteq
      rw [hemp, List.nil_append]
      calc ((pairs.map (fun p => (title, p.1, p.2))).filter (fun r => r.1 == title)).length
          ≤ (pairs.map (fun p => (title, p.1, p.2))).length := List.length_filter_le _ _
        _ = pairs.length := List.length_map _ _
        _ ≤ 10 := hlen
    · have hnil : (pairs.map (fun p => (title, p.1, p.2))).filter (fun r => r.1 == t) = [] := by
        rw [List.filter_eq_nil_iff]
        intro a ha
        rcases List.mem_map.mp ha with ⟨p, _, hp⟩
        rw [← hp]
        simp [hteq]
      rw [hnil, List.append_nil]
      exact (hInv t).1
  · rw [hw, hb]
    intro hmem
    rw [List.map_append] at hmem
    rcases List.mem_append.mp hmem with hold | hnew
    · exact recordBook_books_mono title t db ((hInv t).2 hold)
    · have hteq : title = t := by
        rcases List.mem_map.mp hnew with ⟨r, hrmem, hr⟩
        rcases List.mem_map.mp hrmem with ⟨p, _, hp⟩
        rw [← hp] at hr
        exact hr
      rw [← hteq]
      exact recordBook_mem_self title db

theorem fetch_db_cases (net : Network) (db : DB) (title : String) :
    (fetch_and_process_book net db title).db = db ∨
      ∃ text, (fetch_and_process_book net db title).db =
        recordWords title (top_words text) (recordBook title db) := by
  cases hs : net.fetchSearch (searchUrlOf title) with
  | error e =>
    left
    simp [fetch_and_process_book, hs]
  | ok tags =>
    cases hE : extractLinks tags with
    | error e =>
      left
      simp [fetch_and_process_book, hs, hE]
    | ok ls =>
      cases ls with
      | nil =>
        left
        simp [fetch_and_process_book, hs, hE]
      | cons hd rest =>
        cases hd with
        | none =>
          left
          simp [fetch_and_process_book, hs, hE]
        | some link =>
          cases ht : net.fetchText (textUrlOf (bookIdOf link)) with
          | error e =>
            left
            simp [fetch_and_process_book, hs, hE, ht]
          | ok text =>
            right
            exact ⟨text, by simp [fetch_and_process_book, hs, hE, ht]⟩

theorem fetch_inv (net : Network) (db : DB) (title : String)
    (hInv : dbInv db) (h0 : findTopWords db title = []) :
    dbInv (fetch_and_process_book net db title).db := by
  rcases fetch_db_cases net db title with h | ⟨text, h⟩
  · rw [h]
    exact hInv
  · rw [h]
    exact write_inv db title (top_words text) hInv (List.length_take_le 10 _)
      (filter_eq_nil_of_findTopWords db title h0)

theorem process_input_inv (net : Network) (db : DB) (title url : String)
    (hInv : dbInv db) : dbInv (process_input net db title url).db := by
  unfold process_input
  by_cases ht : pyStrip title ≠ ""
  · rw [if_pos ht]
    unfold search_book
    by_cases hres : findTopWords db (pyStrip title) ≠ []
    · rw [if_pos hres]
      exact hInv
    · rw [if_neg hres]
      exact fetch_inv net db (pyStrip title) hInv (not_not.mp hres)
  · rw [if_neg ht]
    by_cases hu : pyStrip url ≠ ""
    · rw [if_pos hu]
      cases net.fetchText (pyStrip url) with
      | error e => exact hInv
      | ok body => exact hInv
    · rw [if_neg hu]
      exact hInv

theorem runOps_inv (ops : List Op) : dbInv (runOps ops) := by
  have hfold : ∀ (l : List Op) (db : DB), dbInv db →
      dbInv (l.foldl (fun db op => (process_input op.net db op.title op.url).db) db) := by
    intro l
    induction l with
    | nil => intro db h; exact h
    | cons op l ih =>
      intro db h
      exact ih _ (process_input_inv op.net db op.title op.url h)
  exact hfold ops emptyDB emptyDB_inv

/-- C7: starting from the empty store, after any sequence of user actions
every title present in the Words table has at most ten Words rows and a
Books row. -/
theorem c7_store_invariant :
    ∀ (ops : List Op) (t : String),
      t ∈ (runOps ops).words.map (fun r => r.1) →
      ((runOps ops).words.filter (fun r => r.1 == t)).length ≤ 10 ∧
        t ∈ (runOps ops).books := by
  intro ops t hmem
  exact ⟨(runOps_inv ops t).1, (runOps_inv ops t).2 hmem⟩

theorem c7_witness :
    "Moby" ∈ (runOps [⟨net7, "Moby", ""⟩]).words.map (fun r => r.1) ∧
      (((runOps [⟨net7, "Moby", ""⟩]).words.filter (fun r => r.1 == "Moby")).length ≤ 10 ∧
        "Moby" ∈ (runOps [⟨net7, "Moby", ""⟩]).books) :=
  ⟨by decide, c7_store_invariant [⟨net7, "Moby", ""⟩] "Moby" (by decide)⟩

end Gutenberg
